import Mathlib

/-!
Verification of the federated-learning server (`server.py`) and the
hot-reload inference loop (`inference.py`).

Numeric values that the Python code holds in floats are modelled over `ℚ`
(exact arithmetic); the softmax step of the inference path, which uses the
transcendental `exp`, is modelled over `ℝ`.  Python exceptions are modelled
by an explicit error type and `Except`.
-/

namespace FLSop

/-- Python exceptions that the modelled code paths can raise.
`zeroDivisionError`, `fileNotFoundError` and `attributeError` are the
builtin exceptions the source actually raises; `invalidUpdateError` is the
dedicated validation error named by the design document, which no code in
the repository defines or raises — it is present so that statements about
it can be expressed. -/
inductive PyError where
  | zeroDivisionError
  | fileNotFoundError
  | attributeError
  | invalidUpdateError
deriving DecidableEq, Repr

/-- Python attribute lookup `obj.name` against the set of attribute names
ever assigned on the object: raises `AttributeError` when the attribute
does not exist. -/
def getattr (attrs : List String) (name : String) : Except PyError Unit :=
  if name ∈ attrs then Except.ok () else Except.error PyError.attributeError

/-! ## Aggregation of client evaluation metrics (`server.py`, `weighted_average`)

The source:
```python
def weighted_average(metrics):
    accuracies = [num_examples * m["accuracy"] for num_examples, m in metrics]
    examples = [num_examples for num_examples, _ in metrics]
    return {"accuracy": sum(accuracies) / sum(examples)}
```
An entry of `metrics` is modelled as a pair `(num_examples, accuracy)` with
`num_examples : ℕ` (an example count) and `accuracy : ℚ`.  Python raises
`ZeroDivisionError` exactly when `sum(examples) = 0`, which the `Except`
branch makes explicit. -/

def weighted_average (metrics : List (ℕ × ℚ)) : Except PyError ℚ :=
  if (metrics.map (fun p => (p.1 : ℚ))).sum = 0 then
    Except.error PyError.zeroDivisionError
  else
    Except.ok ((metrics.map (fun p => (p.1 : ℚ) * p.2)).sum
      / (metrics.map (fun p => (p.1 : ℚ))).sum)

instance {ε α : Type} [DecidableEq ε] [DecidableEq α] : DecidableEq (Except ε α) :=
  fun a b =>
  match a, b with
  | Except.ok x, Except.ok y =>
      if h : x = y then isTrue (by rw [h]) else isFalse (by simp [h])
  | Except.ok _, Except.error _ => isFalse (by simp)
  | Except.error _, Except.ok _ => isFalse (by simp)
  | Except.error e, Except.error e' =>
      if h : e = e' then isTrue (by rw [h]) else isFalse (by simp [h])

/-- The sum of the casted example counts equals the cast of their sum. -/
lemma examples_sum_cast (metrics : List (ℕ × ℚ)) :
    (metrics.map (fun p => (p.1 : ℚ))).sum
      = (Nat.cast ((metrics.map (fun p => p.1)).sum) : ℚ) := by
  induction metrics with
  | nil => simp
  | cons p ps ih => simp [ih]

/-- When every example count equals `c`, the weighted numerator is `c` times
the plain sum of the values. -/
lemma sum_weighted_const (c : ℕ) (metrics : List (ℕ × ℚ))
    (h : ∀ p ∈ metrics, p.1 = c) :
    (metrics.map (fun p => (p.1 : ℚ) * p.2)).sum
      = (c : ℚ) * (metrics.map (fun p => p.2)).sum := by
  induction metrics with
  | nil => simp
  | cons p ps ih =>
      have hp : p.1 = c := h p (List.mem_cons_self p ps)
      have hps : ∀ q ∈ ps, q.1 = c := fun q hq => h q (List.mem_cons_of_mem p hq)
      simp [hp, ih hps, mul_add]

/-- When every example count equals `c`, the weight denominator is
`c * length`. -/
lemma sum_examples_const (c : ℕ) (metrics : List (ℕ × ℚ))
    (h : ∀ p ∈ metrics, p.1 = c) :
    (metrics.map (fun p => (p.1 : ℚ))).sum = (c : ℚ) * metrics.length := by
  induction metrics with
  | nil => simp
  | cons p ps ih =>
      have hp : p.1 = c := h p (List.mem_cons_self p ps)
      have hps : ∀ q ∈ ps, q.1 = c := fun q hq => h q (List.mem_cons_of_mem p hq)
      simp [hp, ih hps]
      ring

/-- C1: with a positive total example count, `weighted_average` returns the
example-count-weighted mean `sum(n_i * v_i) / sum(n_i)`; and when every
update carries the same positive example count `c`, the result is the
unweighted arithmetic mean of the values. -/
theorem weighted_average_is_weighted_mean (metrics : List (ℕ × ℚ))
    (h : 0 < (metrics.map (fun p => p.1)).sum) :
    weighted_average metrics
        = Except.ok ((metrics.map (fun p => (p.1 : ℚ) * p.2)).sum
            / (metrics.map (fun p => (p.1 : ℚ))).sum)
      ∧ ∀ c : ℕ, 0 < c → (∀ p ∈ metrics, p.1 = c) →
        weighted_average metrics
          = Except.ok ((metrics.map (fun p => p.2)).sum / (metrics.length : ℚ)) := by
  have hsum : (metrics.map (fun p => (p.1 : ℚ))).sum ≠ 0 := by
    rw [examples_sum_cast]
    exact ne_of_gt (Nat.cast_pos.mpr h)
  constructor
  · unfold weighted_average
    rw [if_neg hsum]
  · intro c hc hall
    have hc' : (c : ℚ) ≠ 0 := by exact_mod_cast hc.ne'
    unfold weighted_average
    rw [if_neg hsum, sum_weighted_const c metrics hall, sum_examples_const c metrics hall,
      mul_div_mul_left _ _ hc']

/-- Witness for C1 at a concrete input: two updates with equal example count
2 and accuracies 1 and 3 average to 2. -/
theorem weighted_average_is_weighted_mean_witness :
    weighted_average [(2, 1), (2, 3)] = Except.ok 2 := by
  have h := (weighted_average_is_weighted_mean [(2, 1), (2, 3)] (by decide)).2
      2 (by decide) (by decide)
  rw [h]
  congr 1
  simp only [List.map_cons, List.map_nil, List.sum_cons, List.sum_nil,
    List.length_cons, List.length_nil]
  norm_num

/-- C2 counterexample: when every example count is 0 the code raises the
builtin `ZeroDivisionError` from dividing by the zero weight sum, not the
`InvalidUpdateError` the claim names (no such error exists in the code). -/
theorem weighted_average_zero_weight_counterexample :
    weighted_average [(0, 1)] = Except.error PyError.zeroDivisionError
      ∧ weighted_average [(0, 1)] ≠ Except.error PyError.invalidUpdateError := by
  have h : weighted_average [(0, 1)] = Except.error PyError.zeroDivisionError := by
    unfold weighted_average
    norm_num
  refine ⟨h, ?_⟩
  rw [h]
  intro hc
  exact PyError.noConfusion (Except.error.inj hc)

/-- C2 amended: when every example count is 0, `weighted_average` fails with
the builtin `ZeroDivisionError` raised by the division by the zero weight
sum (no value is returned, but no dedicated `InvalidUpdateError` exists). -/
theorem weighted_average_zero_weight_zero_division (metrics : List (ℕ × ℚ))
    (h : ∀ p ∈ metrics, p.1 = 0) :
    weighted_average metrics = Except.error PyError.zeroDivisionError := by
  have hz : (metrics.map (fun p => (p.1 : ℚ))).sum = 0 := by
    rw [sum_examples_const 0 metrics h]
    simp
  unfold weighted_average
  simp [hz]

/-- Witness for C2's amended statement at the concrete input `[(0, 5)]`. -/
theorem weighted_average_zero_weight_zero_division_witness :
    weighted_average [(0, 5)] = Except.error PyError.zeroDivisionError :=
  weighted_average_zero_weight_zero_division [(0, 5)] (by decide)

/-! ## Checkpoint publishing (`server.py`, `SaveModelStrategy.aggregate_fit`)

After a successful aggregation, `aggregate_fit` performs (lines 244-266):
```python
save_path = self.save_dir / f"model_round_{server_round}.pt"
torch.save({"round": server_round, ...}, save_path)
latest_path = self.save_dir / "model_latest.pt"
torch.save({"round": server_round, ...}, latest_path)
```
`torch.save` opens the destination path and streams the payload into it
directly, so both writes are in-place writes to their final path; no
temporary file and no rename are involved.  The publish step is modelled as
the sequence of filesystem write operations it performs, each carrying the
round number stored in the written payload. -/

inductive FsOp where
  | writeInPlace (path : String) (round : ℕ)
  | atomicReplace (tmp : String) (path : String) (round : ℕ)
deriving DecidableEq, Repr

def round_checkpoint_path (save_dir : String) (server_round : ℕ) : String :=
  save_dir ++ "/model_round_" ++ toString server_round ++ ".pt"

def latest_checkpoint_path (save_dir : String) : String :=
  save_dir ++ "/model_latest.pt"

/-- The filesystem writes of one successful publish, in program order. -/
def publish_ops (save_dir : String) (server_round : ℕ) : List FsOp :=
  [FsOp.writeInPlace (round_checkpoint_path save_dir server_round) server_round,
   FsOp.writeInPlace (latest_checkpoint_path save_dir) server_round]

def FsOp.target : FsOp → String
  | FsOp.writeInPlace p _ => p
  | FsOp.atomicReplace _ p _ => p

def FsOp.isAtomicReplace : FsOp → Bool
  | FsOp.writeInPlace _ _ => false
  | FsOp.atomicReplace _ _ _ => true

/-- `true` iff `ops` updates `path` at least once and every update of `path`
is an atomic rename/replace. -/
def updatesOnlyAtomically (ops : List FsOp) (path : String) : Bool :=
  ops.any (fun op => op.target == path)
    && ops.all (fun op => op.target != path || op.isAtomicReplace)

/-- C3 counterexample: publishing round 1 into `saved_models` updates the
"latest" alias, but not through an atomic rename/replace — the update is an
in-place overwrite, so the claim's atomicity is false at this input. -/
theorem latest_publish_not_atomic_counterexample :
    updatesOnlyAtomically (publish_ops "saved_models" 1)
        (latest_checkpoint_path "saved_models") = false := by
  decide

/-- C3 amended: the publish sequence writes the round-keyed checkpoint first
and only then the "latest" alias, both payloads carrying the same round
number — but both writes are in-place overwrites of their final paths; no
operation of the publish is an atomic rename/replace, so a concurrent
reader of "latest" is not protected against observing a partial write. -/
theorem aggregate_fit_publish_order (save_dir : String) (server_round : ℕ) :
    publish_ops save_dir server_round
      = [FsOp.writeInPlace (round_checkpoint_path save_dir server_round) server_round,
         FsOp.writeInPlace (latest_checkpoint_path save_dir) server_round]
    ∧ ∀ op ∈ publish_ops save_dir server_round, op.isAtomicReplace = false := by
  refine ⟨rfl, ?_⟩
  intro op hop
  simp only [publish_ops, List.mem_cons, List.mem_singleton] at hop
  rcases hop with h | h | h
  · rw [h]; rfl
  · rw [h]; rfl
  · cases h

/-! ## Hot-reload model manager (`inference.py`, `ModelManager`)

A model state dict is a mapping from layer name to a numeric tensor
(modelled as a list of rationals).  A file on disk carries a modification
time (the marker `os.path.getmtime` returns) and a checkpoint payload with
the round number and state dict that `torch.save` stored.  The CUDA/CPU
device choice of the source is irrelevant to the modelled behaviour and is
omitted. -/

abbrev StateDict := List (String × List ℚ)

structure Checkpoint where
  round : ℕ
  model_state_dict : StateDict
deriving DecidableEq, Repr

structure FileInfo where
  mtime : ℕ
  content : Checkpoint
deriving DecidableEq, Repr

/-- The filesystem: what file, if any, each path currently holds. -/
def Fs : Type := String → Option FileInfo

structure ModelManager where
  model_path : String
  model : StateDict
  last_modified : Option ℕ
deriving DecidableEq, Repr

/-- `ModelManager.load_model`: raise `FileNotFoundError` when the model file
is missing; otherwise reload the model and record the new modification
marker exactly when the marker differs from the recorded one.  The returned
boolean says whether the checkpoint payload was read from disk
(`torch.load` executed). -/
def ModelManager.load_model (fs : Fs) (mm : ModelManager) :
    Except PyError (ModelManager × Bool) :=
  match fs mm.model_path with
  | none => Except.error PyError.fileNotFoundError
  | some fi =>
    if mm.last_modified ≠ some fi.mtime then
      Except.ok
        (ModelManager.mk mm.model_path fi.content.model_state_dict (some fi.mtime), true)
    else
      Except.ok (mm, false)

/-- `ModelManager.get_model`: check for updates via `load_model`, then return
the current model. -/
def ModelManager.get_model (fs : Fs) (mm : ModelManager) :
    Except PyError (ModelManager × StateDict) :=
  match ModelManager.load_model fs mm with
  | Except.error e => Except.error e
  | Except.ok r => Except.ok (r.1, r.1.model)

/-- The constructor of `ModelManager`: starts with the freshly instantiated
(untrained) network weights `init_weights` and no recorded marker, then
calls `load_model` once. -/
def ModelManager.start (fs : Fs) (path : String) (init_weights : StateDict) :
    Except PyError ModelManager :=
  match ModelManager.load_model fs (ModelManager.mk path init_weights none) with
  | Except.error e => Except.error e
  | Except.ok r => Except.ok r.1

/-- C4: on `get_model`/`load_model`, when the file's modification marker
differs from the recorded one the model is reloaded from the checkpoint on
disk and the recorded marker becomes the new checkpoint's; when the marker
is unchanged the in-memory model is returned as is and the payload is not
re-read. -/
theorem load_model_hot_reload (fs : Fs) (mm : ModelManager) (fi : FileInfo)
    (hfs : fs mm.model_path = some fi) :
    (mm.last_modified ≠ some fi.mtime →
      ModelManager.load_model fs mm
        = Except.ok
            (ModelManager.mk mm.model_path fi.content.model_state_dict (some fi.mtime),
             true)
      ∧ ModelManager.get_model fs mm
        = Except.ok
            (ModelManager.mk mm.model_path fi.content.model_state_dict (some fi.mtime),
             fi.content.model_state_dict))
    ∧ (mm.last_modified = some fi.mtime →
      ModelManager.load_model fs mm = Except.ok (mm, false)
      ∧ ModelManager.get_model fs mm = Except.ok (mm, mm.model)) := by
  constructor
  · intro hne
    have hl : ModelManager.load_model fs mm
        = Except.ok
            (ModelManager.mk mm.model_path fi.content.model_state_dict (some fi.mtime),
             true) := by
      unfold ModelManager.load_model
      rw [hfs]
      simp [hne]
    refine ⟨hl, ?_⟩
    unfold ModelManager.get_model
    rw [hl]
  · intro heq
    have hl : ModelManager.load_model fs mm = Except.ok (mm, false) := by
      unfold ModelManager.load_model
      rw [hfs]
      simp [heq]
    refine ⟨hl, ?_⟩
    unfold ModelManager.get_model
    rw [hl]

/-- A one-file filesystem holding a round-2 checkpoint at the "latest" path,
with modification time 7. -/
def fs_single : Fs := fun p =>
  if p = "saved_models/model_latest.pt" then
    some (FileInfo.mk 7 (Checkpoint.mk 2 [("w", [1])]))
  else none

/-- A manager that last loaded some earlier version (no marker recorded). -/
def mm_stale : ModelManager :=
  ModelManager.mk "saved_models/model_latest.pt" [] none

/-- A manager whose recorded marker already matches modification time 7. -/
def mm_fresh : ModelManager :=
  ModelManager.mk "saved_models/model_latest.pt" [("w", [1])] (some 7)

/-- Witness for C4 at concrete inputs: the stale manager reloads and records
marker 7; the fresh manager is returned unchanged without a payload read. -/
theorem load_model_hot_reload_witness :
    ModelManager.get_model fs_single mm_stale
      = Except.ok
          (ModelManager.mk "saved_models/model_latest.pt" [("w", [1])] (some 7),
           [("w", [1])])
    ∧ ModelManager.load_model fs_single mm_fresh = Except.ok (mm_fresh, false) := by
  constructor
  · exact ((load_model_hot_reload fs_single mm_stale
      (FileInfo.mk 7 (Checkpoint.mk 2 [("w", [1])])) (by decide)).1 (by decide)).2
  · exact ((load_model_hot_reload fs_single mm_fresh
      (FileInfo.mk 7 (Checkpoint.mk 2 [("w", [1])])) (by decide)).2 (by decide)).1

/-! ## The inference loop (`inference.py`, `run_inference` and `main`)

One loop iteration is driven by what `cap.read()` returns, or by an
external stop signal (the `q` key or `KeyboardInterrupt`).  On a failed
read the source releases the capture handle, sleeps one second, reopens the
stream by its URL and continues; on a successful read it refreshes the
model and calls `processor.preprocess_frame(frame)`; on a stop signal it
leaves the loop, releasing the capture in the `finally` block.

Two attribute accesses in this path are broken in the source:
`preprocess_frame`'s first statement reads `self.use_mnist` (line 99), an
attribute `InferenceProcessor.__init__` never assigns, so a successful
read raises `AttributeError`, which nothing inside the loop catches; and
`main` (line 190) evaluates `args.mnist`, an attribute the argument parser
never defines (and passes it to the one-parameter `ModelManager.__init__`),
so startup raises `AttributeError` before `ModelManager` runs.  Both are
modelled as the attribute lookups they are. -/

/-- The attributes `InferenceProcessor.__init__` assigns (lines 75-95):
`device`, `transform`, `labels` — never `use_mnist`. -/
def inference_processor_attrs : List String := ["device", "transform", "labels"]

/-- `InferenceProcessor.preprocess_frame`: its first statement evaluates
`self.use_mnist` (line 99); the lookup raises `AttributeError` before any
image operation runs, so the image pipeline it would otherwise perform is
never reached. -/
def preprocess_frame : Except PyError Unit :=
  match getattr inference_processor_attrs "use_mnist" with
  | Except.error e => Except.error e
  | Except.ok _ => Except.ok ()

inductive StreamEvent where
  | readFail
  | readOk
  | stop
deriving DecidableEq, Repr

inductive LoopAction where
  | releaseStream
  | sleep (seconds : ℕ)
  | reopenStream
  | processFrame
deriving DecidableEq, Repr

/-- Loop state: whether the `while True` loop is still running, the number
of fully processed frames, and the uncaught exception that broke the loop,
if any. -/
structure LoopState where
  running : Bool
  frames : ℕ
  uncaught : Option PyError
deriving DecidableEq, Repr

/-- One iteration of the `while True` loop.  On a successful read the model
refresh (`get_model`) precedes preprocessing and is not the failing step;
`preprocess_frame` then raises, the exception propagates out of the loop
(only `KeyboardInterrupt` is caught) and the `finally` block releases the
capture.  The ok-branch after preprocessing (prediction, overlay, frame
count) is kept for the record but is unreachable with the source's
processor attributes. -/
def loop_step (s : LoopState) (e : StreamEvent) : LoopState × List LoopAction :=
  if s.running then
    match e with
    | StreamEvent.readFail =>
        (s, [LoopAction.releaseStream, LoopAction.sleep 1, LoopAction.reopenStream])
    | StreamEvent.readOk =>
        match preprocess_frame with
        | Except.error err =>
            (LoopState.mk false s.frames (some err), [LoopAction.releaseStream])
        | Except.ok _ =>
            (LoopState.mk true (s.frames + 1) none, [LoopAction.processFrame])
    | StreamEvent.stop =>
        (LoopState.mk false s.frames none, [LoopAction.releaseStream])
  else (s, [])

/-- Run the loop over a finite prefix of stream events. -/
def run_loop : LoopState → List StreamEvent → LoopState × List LoopAction
  | s, [] => (s, [])
  | s, e :: es =>
    let r := loop_step s e
    let r' := run_loop r.1 es
    (r'.1, r.2 ++ r'.2)

/-- `run_inference`, started on an opened stream with no frame processed. -/
def run_inference (evs : List StreamEvent) : LoopState × List LoopAction :=
  run_loop (LoopState.mk true 0 none) evs

/-- The attributes the argument parser defines (lines 19-38): `model_path`,
`rtsp_url`, `confidence_threshold` — no `mnist`. -/
def parser_args : List String := ["model_path", "rtsp_url", "confidence_threshold"]

/-- `main` (lines 185-207): inside the try block it first evaluates
`args.mnist` for the call `ModelManager(args.model_path, args.mnist)`
(line 190); the parser never defines `mnist`, so this raises
`AttributeError` before `ModelManager` — and its checkpoint check — can
run.  (Even were the attribute present, `ModelManager.__init__` accepts
only `model_path`, so the two-argument call would raise `TypeError`.)  The
`except Exception` handler prints the error and returns 1.  The branch
after a successful lookup models the rest of `main`: build the manager,
open the stream, run the loop.  Returns (exit code, frames processed). -/
def main (fs : Fs) (path : String) (init_weights : StateDict) (canOpen : Bool)
    (evs : List StreamEvent) : ℕ × ℕ :=
  match getattr parser_args "mnist" with
  | Except.error _ => (1, 0)
  | Except.ok _ =>
    match ModelManager.start fs path init_weights with
    | Except.error _ => (1, 0)
    | Except.ok _ =>
      if canOpen then (0, (run_inference evs).1.frames)
      else (1, 0)

/-- The empty filesystem: no checkpoint was ever published. -/
def fs_empty : Fs := fun _ => none

/-- C6: the claim fails on the code.  `main` evaluates `args.mnist`, which
the parser never defines, so startup raises `AttributeError` — with the
checkpoint file absent or present alike — before `ModelManager`, and with
it the checkpoint-not-found check of `load_model`, ever runs.  The process
does exit with code 1 having processed no frame, but not for the claimed
reason: the `FileNotFoundError` ("Model file not found") path is
unreachable from `main`, though `load_model` itself, called directly on
the empty filesystem, does raise it. -/
theorem missing_model_attribute_error :
    getattr parser_args "mnist" = Except.error PyError.attributeError
    ∧ main fs_empty "saved_models/model_latest.pt" [] true [StreamEvent.readOk]
        = (1, 0)
    ∧ main fs_single "saved_models/model_latest.pt" [] true [StreamEvent.readOk]
        = (1, 0)
    ∧ ModelManager.load_model fs_empty
        (ModelManager.mk "saved_models/model_latest.pt" [] none)
        = Except.error PyError.fileNotFoundError := by
  refine ⟨by decide, by decide, by decide, rfl⟩

/-- C9: the failure branch behaves as claimed (release, sleep 1, reopen,
stay in the loop: after three consecutive read failures the loop is still
running with no frame processed), but the claim's "followed by a successful
read never terminates the loop" fails on the code: the fourth event, a
successful read, reaches `preprocess_frame`, whose `self.use_mnist` lookup
raises `AttributeError` and terminates the loop without any stop signal. -/
theorem successful_read_attribute_error :
    preprocess_frame = Except.error PyError.attributeError
    ∧ loop_step (LoopState.mk true 0 none) StreamEvent.readFail
        = (LoopState.mk true 0 none,
           [LoopAction.releaseStream, LoopAction.sleep 1, LoopAction.reopenStream])
    ∧ (run_inference [StreamEvent.readFail, StreamEvent.readFail,
        StreamEvent.readFail]).1 = LoopState.mk true 0 none
    ∧ (run_inference [StreamEvent.readFail, StreamEvent.readFail,
        StreamEvent.readFail, StreamEvent.readOk]).1
        = LoopState.mk false 0 (some PyError.attributeError) := by
  refine ⟨rfl, by decide, by decide, by decide⟩

/-! ## Server-side evaluation (`server.py`, `test`)

The evaluation loop walks the batches of the test loader; for each sample it
has a ground-truth label and the model's argmax prediction, and for each
batch a scalar loss `criterion(outputs, labels).item()`.  The network
forward pass is abstracted into the per-sample predicted class; the loss
into the per-batch scalar.  Per-class tallies are 10-entry tensors, built
by the same increment loop as the source:
```python
for label, prediction in zip(labels, predicted):
    class_total[label] += 1
    if label == prediction:
        class_correct[label] += 1
running_loss += loss.item()
```
and afterwards
```python
overall_accuracy = class_correct.sum() / class_total.sum() * 100
avg_loss = running_loss / len(testloader)
accuracy = (class_correct[i] / class_total[i] * 100) if class_total[i] > 0 else 0
``` -/

structure TestBatch where
  pairs : List (Fin 10 × Fin 10)
  loss : ℚ
deriving DecidableEq, Repr

/-- All (label, prediction) pairs of the run, in loader order. -/
def allPairs (batches : List TestBatch) : List (Fin 10 × Fin 10) :=
  (batches.map TestBatch.pairs).join

/-- `t[i] += 1` on a 10-entry count tensor. -/
def bump (t : Fin 10 → ℕ) (i : Fin 10) : Fin 10 → ℕ :=
  fun j => if j = i then t j + 1 else t j

def class_total (batches : List TestBatch) : Fin 10 → ℕ :=
  (allPairs batches).foldl (fun t p => bump t p.1) (fun _ => 0)

def class_correct (batches : List TestBatch) : Fin 10 → ℕ :=
  (allPairs batches).foldl (fun t p => if p.1 = p.2 then bump t p.1 else t) (fun _ => 0)

/-- `tensor.sum()` over the 10 entries. -/
def tensor_sum (t : Fin 10 → ℕ) : ℕ := ∑ i : Fin 10, t i

def class_accuracy (batches : List TestBatch) (i : Fin 10) : ℚ :=
  if 0 < class_total batches i then
    (class_correct batches i : ℚ) / (class_total batches i : ℚ) * 100
  else 0

def overall_accuracy (batches : List TestBatch) : ℚ :=
  (tensor_sum (class_correct batches) : ℚ) / (tensor_sum (class_total batches) : ℚ) * 100

def running_loss (batches : List TestBatch) : ℚ :=
  batches.foldl (fun acc b => acc + b.loss) 0

def avg_loss (batches : List TestBatch) : ℚ :=
  running_loss batches / (batches.length : ℚ)

/-- The `class_total` increment loop counts, per class, the samples with
that ground-truth label. -/
lemma foldl_bump_total (l : List (Fin 10 × Fin 10)) :
    ∀ (t : Fin 10 → ℕ) (i : Fin 10),
      (l.foldl (fun t p => bump t p.1) t) i = t i + l.countP (fun p => p.1 == i) := by
  induction l with
  | nil => intro t i; simp
  | cons p ps ih =>
      intro t i
      rw [List.foldl_cons, ih (bump t p.1) i, List.countP_cons]
      by_cases h : i = p.1
      · subst h
        rw [if_pos (by simp : (p.1 == p.1) = true),
          show bump t p.1 p.1 = t p.1 + 1 from by simp [bump]]
        omega
      · rw [if_neg (by simp only [beq_iff_eq]; exact fun hx => h hx.symm),
          show bump t p.1 i = t i from by simp [bump, h]]
        omega

/-- The `class_correct` increment loop counts, per class, the samples with
that label that were predicted correctly. -/
lemma foldl_bump_correct (l : List (Fin 10 × Fin 10)) :
    ∀ (t : Fin 10 → ℕ) (i : Fin 10),
      (l.foldl (fun t p => if p.1 = p.2 then bump t p.1 else t) t) i
        = t i + l.countP (fun p => p.1 == i && p.2 == i) := by
  induction l with
  | nil => intro t i; simp
  | cons p ps ih =>
      intro t i
      rw [List.foldl_cons, ih _ i, List.countP_cons]
      by_cases hpq : p.1 = p.2
      · rw [if_pos hpq]
        by_cases h : i = p.1
        · subst h
          have hcond : ((p.1 == p.1) && (p.2 == p.1)) = true := by
            simp [← hpq]
          rw [if_pos hcond,
            show bump t p.1 p.1 = t p.1 + 1 from by simp [bump]]
          omega
        · have hcond : ¬((p.1 == i) && (p.2 == i)) = true := by
            simp only [Bool.and_eq_true, beq_iff_eq]
            rintro ⟨h1, h2⟩
            exact h h1.symm
          rw [if_neg hcond,
            show bump t p.1 i = t i from by simp [bump, h]]
          omega
      · rw [if_neg hpq]
        have hcond : ¬((p.1 == i) && (p.2 == i)) = true := by
          simp only [Bool.and_eq_true, beq_iff_eq]
          rintro ⟨h1, h2⟩
          exact hpq (h1.trans h2.symm)
        rw [if_neg hcond]
        omega

lemma class_total_eq_countP (batches : List TestBatch) (i : Fin 10) :
    class_total batches i = (allPairs batches).countP (fun p => p.1 == i) := by
  unfold class_total
  rw [foldl_bump_total]
  simp

lemma class_correct_eq_countP (batches : List TestBatch) (i : Fin 10) :
    class_correct batches i
      = (allPairs batches).countP (fun p => p.1 == i && p.2 == i) := by
  unfold class_correct
  rw [foldl_bump_correct]
  simp

/-- Summing the per-class sample tallies over the 10 classes gives the total
sample count. -/
lemma sum_countP_fst (l : List (Fin 10 × Fin 10)) :
    ∑ i : Fin 10, l.countP (fun p => p.1 == i) = l.length := by
  induction l with
  | nil => simp
  | cons p ps ih =>
      simp only [List.countP_cons, List.length_cons]
      rw [Finset.sum_add_distrib, ih]
      have h1 : (∑ i : Fin 10, if (p.1 == i) then 1 else 0) = 1 := by
        simp only [beq_iff_eq]
        rw [Finset.sum_ite_eq]
        simp
      rw [h1]

/-- Summing the per-class correct tallies over the 10 classes gives the
total number of correctly predicted samples. -/
lemma sum_countP_correct (l : List (Fin 10 × Fin 10)) :
    ∑ i : Fin 10, l.countP (fun p => p.1 == i && p.2 == i)
      = l.countP (fun p => p.1 == p.2) := by
  induction l with
  | nil => simp
  | cons p ps ih =>
      simp only [List.countP_cons]
      rw [Finset.sum_add_distrib, ih]
      have h1 : (∑ i : Fin 10, if ((p.1 == i) && (p.2 == i)) then 1 else 0)
          = if (p.1 == p.2) then 1 else 0 := by
        by_cases hpq : p.1 = p.2
        · have he : ∀ i : Fin 10, ((p.1 == i) && (p.2 == i)) = (p.1 == i) := by
            intro i
            rw [← hpq, Bool.and_self]
          simp only [he]
          rw [if_pos (by simp [hpq] : (p.1 == p.2) = true)]
          simp only [beq_iff_eq]
          rw [Finset.sum_ite_eq]
          simp
        · have he : ∀ i : Fin 10, ((p.1 == i) && (p.2 == i)) = false := by
            intro i
            by_cases h1 : p.1 = i
            · by_cases h2 : p.2 = i
              · exact absurd (h1.trans h2.symm) hpq
              · simp [h2]
            · simp [h1]
          simp only [he]
          rw [if_neg (by simp [hpq] : ¬(p.1 == p.2) = true)]
          simp
      rw [h1]

/-- The `running_loss` accumulation is the sum of the per-batch losses. -/
lemma running_loss_eq_sum (batches : List TestBatch) :
    running_loss batches = (batches.map TestBatch.loss).sum := by
  unfold running_loss
  suffices h : ∀ a : ℚ, batches.foldl (fun acc b => acc + b.loss) a
      = a + (batches.map TestBatch.loss).sum by
    rw [h 0, zero_add]
  induction batches with
  | nil => intro a; simp
  | cons b bs ih =>
      intro a
      rw [List.foldl_cons, ih (a + b.loss), List.map_cons, List.sum_cons]
      ring

/-- A run with one batch of a single class-1 sample predicted as class 2:
class 0 has no samples, class 1 was evaluated and scored 0%. -/
def eval_batches_example : List TestBatch :=
  [TestBatch.mk [((1 : Fin 10), (2 : Fin 10))] 1]

/-- C7 counterexample: class 0 has zero ground-truth samples and class 1
was evaluated with accuracy 0%; the report gives both the same plain entry
0, so a zero-sample class is not marked "no samples" and is not
distinguishable from a 0%-accuracy class. -/
theorem zero_sample_class_indistinct_counterexample :
    class_total eval_batches_example 0 = 0
    ∧ class_total eval_batches_example 1 = 1
    ∧ class_correct eval_batches_example 1 = 0
    ∧ class_accuracy eval_batches_example 0 = class_accuracy eval_batches_example 1 := by
  have h0 : class_total eval_batches_example 0 = 0 := by decide
  have h1 : class_total eval_batches_example 1 = 1 := by decide
  have h2 : class_correct eval_batches_example 1 = 0 := by decide
  refine ⟨h0, h1, h2, ?_⟩
  unfold class_accuracy
  rw [h0, h1, h2]
  norm_num

/-- C7 amended: a class with zero ground-truth samples does not fault (the
`class_total[i] > 0` guard skips the division) and its report entry is the
plain number 0 — the same value a 0%-accuracy evaluated class gets, with no
"no samples" marking. -/
theorem zero_sample_class_reports_zero (batches : List TestBatch) (i : Fin 10)
    (h : class_total batches i = 0) :
    class_accuracy batches i = 0 := by
  unfold class_accuracy
  rw [h]
  norm_num

/-- Witness for C7's amended statement: class 0 of the example run. -/
theorem zero_sample_class_reports_zero_witness :
    class_accuracy eval_batches_example 0 = 0 :=
  zero_sample_class_reports_zero eval_batches_example 0 (by decide)

/-- A run with one batch holding a correct class-0 sample and a wrong
class-1 sample, with batch loss 1. -/
def eval_batches_two : List TestBatch :=
  [TestBatch.mk [((0 : Fin 10), (0 : Fin 10)), ((1 : Fin 10), (2 : Fin 10))] 1]

/-- C8 counterexample: with 1 of 2 samples correct, the reported
overall_accuracy is 50 (a percentage), not the ratio 1/2 the claim states. -/
theorem overall_accuracy_not_ratio_counterexample :
    overall_accuracy eval_batches_two
      ≠ ((allPairs eval_batches_two).countP (fun p => p.1 == p.2) : ℚ)
          / ((allPairs eval_batches_two).length : ℚ) := by
  have h1 : tensor_sum (class_correct eval_batches_two) = 1 := by decide
  have h2 : tensor_sum (class_total eval_batches_two) = 2 := by decide
  have h3 : (allPairs eval_batches_two).countP (fun p => p.1 == p.2) = 1 := by decide
  have h4 : (allPairs eval_batches_two).length = 2 := by decide
  unfold overall_accuracy
  rw [h1, h2, h3, h4]
  norm_num

/-- C8 amended: over a non-empty run, overall_accuracy is the percentage
`100 * total_correct / total_samples` (summed over all classes combined),
and avg_loss is the mean of the per-batch loss values. -/
theorem test_metrics_formulas (batches : List TestBatch) (h : batches ≠ []) :
    overall_accuracy batches
      = 100 * ((allPairs batches).countP (fun p => p.1 == p.2) : ℚ)
          / ((allPairs batches).length : ℚ)
    ∧ avg_loss batches = (batches.map TestBatch.loss).sum / (batches.length : ℚ) := by
  constructor
  · have hc : tensor_sum (class_correct batches)
        = (allPairs batches).countP (fun p => p.1 == p.2) := by
      unfold tensor_sum
      simp only [class_correct_eq_countP]
      exact sum_countP_correct (allPairs batches)
    have ht : tensor_sum (class_total batches) = (allPairs batches).length := by
      unfold tensor_sum
      simp only [class_total_eq_countP]
      exact sum_countP_fst (allPairs batches)
    unfold overall_accuracy
    rw [hc, ht]
    ring
  · unfold avg_loss
    rw [running_loss_eq_sum]

/-- Witness for C8's amended statement at the two-sample run: accuracy 50,
average loss 1. -/
theorem test_metrics_formulas_witness :
    overall_accuracy eval_batches_two = 50 ∧ avg_loss eval_batches_two = 1 := by
  have h := test_metrics_formulas eval_batches_two (by decide)
  constructor
  · rw [h.1]
    rw [show (allPairs eval_batches_two).countP (fun p => p.1 == p.2) = 1 from by decide,
      show (allPairs eval_batches_two).length = 2 from by decide]
    norm_num
  · rw [h.2]
    simp [eval_batches_two]

/-! ## Confidence-gated prediction (`inference.py`, `InferenceProcessor.get_prediction`)

```python
probabilities = F.softmax(outputs, dim=1)
confidence, prediction = torch.max(probabilities, 1)
if confidence < confidence_threshold:
    return "Low confidence", 0.0
label = self.labels.get(prediction, "Unknown")
return label, confidence
```
The 1×C output row is a list of reals; softmax uses the real exponential.
`torch.max` returns the maximum value together with the index of its first
occurrence. -/

/-- `self.labels.get(prediction, "Unknown")` over the CIFAR-10 label dict. -/
def cifar10_labels (n : ℕ) : String :=
  match n with
  | 0 => "airplane"
  | 1 => "automobile"
  | 2 => "bird"
  | 3 => "cat"
  | 4 => "deer"
  | 5 => "dog"
  | 6 => "frog"
  | 7 => "horse"
  | 8 => "ship"
  | 9 => "truck"
  | _ => "Unknown"

/-- `torch.max` accumulator: best value so far, its index, and the index of
the next element. -/
def max_with_index {α : Type} [LinearOrder α] : α → ℕ → ℕ → List α → α × ℕ
  | v, i, _, [] => (v, i)
  | v, i, j, x :: xs =>
      if v < x then max_with_index x j (j + 1) xs else max_with_index v i (j + 1) xs

/-- The thresholding of `get_prediction` after softmax: find the maximum
probability and its class index, gate on the confidence threshold.  The
empty case never occurs for a network output row (`torch.max` would raise);
the claims only ever apply this to non-empty probability rows. -/
def prediction_of_probs {α : Type} [LinearOrder α] [Zero α]
    (probs : List α) (confidence_threshold : α) : String × α :=
  match probs with
  | [] => ("Low confidence", 0)
  | x :: xs =>
    if (max_with_index x 0 1 xs).1 < confidence_threshold then ("Low confidence", 0)
    else (cifar10_labels (max_with_index x 0 1 xs).2, (max_with_index x 0 1 xs).1)

/-- `F.softmax(outputs, dim=1)` on one output row. -/
noncomputable def softmax (outputs : List ℝ) : List ℝ :=
  outputs.map (fun x => Real.exp x / (outputs.map Real.exp).sum)

/-- `InferenceProcessor.get_prediction`. -/
noncomputable def get_prediction (outputs : List ℝ) (confidence_threshold : ℝ) :
    String × ℝ :=
  prediction_of_probs (softmax outputs) confidence_threshold

/-- The `--confidence_threshold` parser default, 0.1. -/
noncomputable def confidence_threshold_default : ℝ := 1 / 10

/-- The value `max_with_index` returns bounds the start value and every list
element from above, and is the start value or a list element. -/
lemma max_with_index_fst {α : Type} [LinearOrder α] (xs : List α) :
    ∀ (v : α) (i j : ℕ),
      v ≤ (max_with_index v i j xs).1
      ∧ (∀ y ∈ xs, y ≤ (max_with_index v i j xs).1)
      ∧ ((max_with_index v i j xs).1 = v ∨ (max_with_index v i j xs).1 ∈ xs) := by
  induction xs with
  | nil =>
      intro v i j
      refine ⟨le_refl v, ?_, Or.inl rfl⟩
      intro y hy
      exact absurd hy (List.not_mem_nil y)
  | cons x xs ih =>
      intro v i j
      by_cases h : v < x
      · simp only [max_with_index, if_pos h]
        obtain ⟨h1, h2, h3⟩ := ih x j (j + 1)
        refine ⟨le_trans (le_of_lt h) h1, ?_, ?_⟩
        · intro y hy
          rcases List.mem_cons.mp hy with rfl | hy'
          · exact h1
          · exact h2 y hy'
        · rcases h3 with h3 | h3
          · exact Or.inr (by rw [h3]; exact List.mem_cons_self x xs)
          · exact Or.inr (List.mem_cons_of_mem x h3)
      · simp only [max_with_index, if_neg h]
        obtain ⟨h1, h2, h3⟩ := ih v i (j + 1)
        refine ⟨h1, ?_, ?_⟩
        · intro y hy
          rcases List.mem_cons.mp hy with rfl | hy'
          · exact le_trans (le_of_not_lt h) h1
          · exact h2 y hy'
        · rcases h3 with h3 | h3
          · exact Or.inl h3
          · exact Or.inr (List.mem_cons_of_mem x h3)

/-- The index `max_with_index` returns points at the returned value: either
nothing beat the start value, or position `j + k` of the scanned list holds
the returned maximum. -/
lemma max_with_index_snd {α : Type} [LinearOrder α] (xs : List α) :
    ∀ (v : α) (i j : ℕ),
      ((max_with_index v i j xs).1 = v ∧ (max_with_index v i j xs).2 = i)
      ∨ ∃ k, xs.get? k = some (max_with_index v i j xs).1
          ∧ (max_with_index v i j xs).2 = j + k := by
  induction xs with
  | nil => intro v i j; exact Or.inl ⟨rfl, rfl⟩
  | cons x xs ih =>
      intro v i j
      by_cases h : v < x
      · simp only [max_with_index, if_pos h]
        rcases ih x j (j + 1) with ⟨h1, h2⟩ | ⟨k, hget, h2⟩
        · refine Or.inr ⟨0, ?_, ?_⟩
          · rw [List.get?_cons_zero, h1]
          · rw [h2]
            omega
        · refine Or.inr ⟨k + 1, ?_, ?_⟩
          · rw [List.get?_cons_succ]
            exact hget
          · rw [h2]
            omega
      · simp only [max_with_index, if_neg h]
        rcases ih v i (j + 1) with h1 | ⟨k, hget, h2⟩
        · exact Or.inl h1
        · refine Or.inr ⟨k + 1, ?_, ?_⟩
          · rw [List.get?_cons_succ]
            exact hget
          · rw [h2]
            omega

/-- Gating behaviour of the post-softmax part of `get_prediction`: when the
maximum probability `m` is below the threshold, the result is
("Low confidence", 0); otherwise the result carries the untouched maximum
confidence `m` and the label of a class index holding `m`. -/
lemma prediction_of_probs_gating {α : Type} [LinearOrder α] [Zero α]
    (probs : List α) (t m : α) (hmem : m ∈ probs) (hmax : ∀ y ∈ probs, y ≤ m) :
    (m < t → prediction_of_probs probs t = ("Low confidence", 0))
    ∧ (t ≤ m →
        (prediction_of_probs probs t).2 = m
        ∧ ∃ k, probs.get? k = some m
            ∧ (prediction_of_probs probs t).1 = cifar10_labels k) := by
  cases probs with
  | nil => cases hmem
  | cons x xs =>
      obtain ⟨hge_x, hge_xs, hmem'⟩ := max_with_index_fst xs x 0 1
      have hfst_mem : (max_with_index x 0 1 xs).1 ∈ x :: xs := by
        rcases hmem' with h | h
        · rw [h]
          exact List.mem_cons_self x xs
        · exact List.mem_cons_of_mem x h
      have hle : (max_with_index x 0 1 xs).1 ≤ m := hmax _ hfst_mem
      have hge : m ≤ (max_with_index x 0 1 xs).1 := by
        rcases List.mem_cons.mp hmem with rfl | hm
        · exact hge_x
        · exact hge_xs m hm
      have hfst : (max_with_index x 0 1 xs).1 = m := le_antisymm hle hge
      constructor
      · intro hlt
        simp only [prediction_of_probs]
        rw [if_pos (hfst ▸ hlt)]
      · intro hge'
        have hnlt : ¬ (max_with_index x 0 1 xs).1 < t := by
          rw [hfst]
          exact not_lt.mpr hge'
        have hres : prediction_of_probs (x :: xs) t
            = (cifar10_labels (max_with_index x 0 1 xs).2,
               (max_with_index x 0 1 xs).1) := by
          simp only [prediction_of_probs]
          rw [if_neg hnlt]
        refine ⟨by rw [hres]; exact hfst, ?_⟩
        rcases max_with_index_snd xs x 0 1 with ⟨h1, h2⟩ | ⟨k, hget, h2⟩
        · refine ⟨0, ?_, ?_⟩
          · rw [List.get?_cons_zero, h1.symm.trans hfst]
          · rw [hres, h2]
        · refine ⟨k + 1, ?_, ?_⟩
          · rw [List.get?_cons_succ, hget, hfst]
          · rw [hres, h2, Nat.add_comm]

/-- C5: for every output row and threshold, when the maximum softmax
probability `m` is below the threshold `get_prediction` returns
("Low confidence", 0) — neither the raw label nor the raw low confidence;
otherwise it returns the label of a class achieving `m` together with the
true confidence `m`. -/
theorem get_prediction_confidence_gating (outputs : List ℝ) (t m : ℝ)
    (hmem : m ∈ softmax outputs) (hmax : ∀ y ∈ softmax outputs, y ≤ m) :
    (m < t → get_prediction outputs t = ("Low confidence", 0))
    ∧ (t ≤ m →
        (get_prediction outputs t).2 = m
        ∧ ∃ k, (softmax outputs).get? k = some m
            ∧ (get_prediction outputs t).1 = cifar10_labels k) := by
  unfold get_prediction
  exact prediction_of_probs_gating (softmax outputs) t m hmem hmax

/-- Softmax of a two-entry zero row is `[1/2, 1/2]`. -/
lemma softmax_zero_pair : softmax [(0 : ℝ), 0] = [1 / 2, 1 / 2] := by
  unfold softmax
  simp [Real.exp_zero]
  norm_num

/-- Witness for C5: with probabilities `[1/2, 1/2]` (max 1/2) and threshold
3/4, the result is ("Low confidence", 0). -/
theorem get_prediction_confidence_gating_witness :
    get_prediction [(0 : ℝ), 0] (3 / 4) = ("Low confidence", 0) := by
  refine (get_prediction_confidence_gating [(0 : ℝ), 0] (3 / 4) (1 / 2) ?_ ?_).1
    (by norm_num)
  · rw [softmax_zero_pair]
    exact List.mem_cons_self _ _
  · rw [softmax_zero_pair]
    intro y hy
    rcases List.mem_cons.mp hy with rfl | hy'
    · exact le_refl _
    · rcases List.mem_cons.mp hy' with rfl | h0
      · exact le_refl _
      · cases h0

/-- A list bounded above by `m` has sum at most `length * m`. -/
lemma list_sum_le_length_mul (l : List ℝ) (m : ℝ) (h : ∀ y ∈ l, y ≤ m) :
    l.sum ≤ (l.length : ℝ) * m := by
  induction l with
  | nil => simp
  | cons x xs ih =>
      have hx : x ≤ m := h x (List.mem_cons_self x xs)
      have hxs : xs.sum ≤ (xs.length : ℝ) * m :=
        ih (fun y hy => h y (List.mem_cons_of_mem x hy))
      simp only [List.sum_cons, List.length_cons]
      push_cast
      nlinarith

/-- The sum of exponentials of a non-empty row is positive. -/
lemma exp_sum_pos (l : List ℝ) (h : l ≠ []) : 0 < (l.map Real.exp).sum := by
  cases l with
  | nil => exact absurd rfl h
  | cons x xs =>
      simp only [List.map_cons, List.sum_cons]
      have h2 : 0 ≤ (xs.map Real.exp).sum := by
        apply List.sum_nonneg
        intro y hy
        obtain ⟨z, _, rfl⟩ := List.mem_map.mp hy
        exact (Real.exp_pos z).le
      have h1 : 0 < Real.exp x := Real.exp_pos x
      linarith

lemma sum_map_div_exp (l : List ℝ) (S : ℝ) :
    (l.map (fun x => Real.exp x / S)).sum = (l.map Real.exp).sum / S := by
  induction l with
  | nil => simp
  | cons x xs ih =>
      simp only [List.map_cons, List.sum_cons, ih]
      rw [div_add_div_same]

/-- Softmax probabilities of a non-empty row sum to 1. -/
lemma softmax_sum (outputs : List ℝ) (h : outputs ≠ []) :
    (softmax outputs).sum = 1 := by
  unfold softmax
  rw [sum_map_div_exp]
  exact div_self (exp_sum_pos outputs h).ne'

/-- The ten class labels are neither "Low confidence" nor "Unknown". -/
lemma cifar10_labels_classes :
    ∀ k : ℕ, k < 10 →
      cifar10_labels k ≠ "Low confidence" ∧ cifar10_labels k ≠ "Unknown" := by
  decide

/-- C10: a 10-class softmax row always has maximum probability at least
1/10, so for any threshold at most the parser default 0.1 (the comparison
being strict) `get_prediction` never takes the "Low confidence" branch: it
returns one of the ten actual class labels with the true maximum
confidence. -/
theorem default_threshold_never_low_confidence (outputs : List ℝ)
    (hlen : outputs.length = 10) (t : ℝ) (ht : t ≤ confidence_threshold_default) :
    (get_prediction outputs t).1 ≠ "Low confidence"
    ∧ (∃ k, k < 10 ∧ (get_prediction outputs t).1 = cifar10_labels k
        ∧ cifar10_labels k ≠ "Unknown")
    ∧ ∃ m ∈ softmax outputs, (∀ y ∈ softmax outputs, y ≤ m)
        ∧ confidence_threshold_default ≤ m ∧ (get_prediction outputs t).2 = m := by
  have hne : outputs ≠ [] := by
    intro h0
    rw [h0] at hlen
    simp at hlen
  have hslen : (softmax outputs).length = 10 := by
    unfold softmax
    rw [List.length_map, hlen]
  have hdef : confidence_threshold_default = 1 / 10 := rfl
  obtain ⟨m, hmem, hmax⟩ :
      ∃ m ∈ softmax outputs, ∀ y ∈ softmax outputs, y ≤ m := by
    rcases hsm : softmax outputs with _ | ⟨x, xs⟩
    · rw [hsm] at hslen
      simp at hslen
    · obtain ⟨h1, h2, h3⟩ := max_with_index_fst xs x 0 1
      refine ⟨(max_with_index x 0 1 xs).1, ?_, ?_⟩
      · rcases h3 with h3 | h3
        · rw [h3]
          exact List.mem_cons_self x xs
        · exact List.mem_cons_of_mem x h3
      · intro y hy
        rcases List.mem_cons.mp hy with rfl | hy'
        · exact h1
        · exact h2 y hy'
  have hm10 : confidence_threshold_default ≤ m := by
    have hsum1 : (softmax outputs).sum = 1 := softmax_sum outputs hne
    have hle : (softmax outputs).sum ≤ ((softmax outputs).length : ℝ) * m :=
      list_sum_le_length_mul (softmax outputs) m hmax
    rw [hsum1, hslen] at hle
    rw [hdef]
    push_cast at hle
    linarith
  have ht' : t ≤ m := le_trans ht hm10
  obtain ⟨h2, k, hget, hlab⟩ :=
    (prediction_of_probs_gating (softmax outputs) t m hmem hmax).2 ht'
  have hk10 : k < 10 := by
    have hk : k < (softmax outputs).length := by
      rcases List.get?_eq_some.mp hget with ⟨hk, _⟩
      exact hk
    rw [hslen] at hk
    exact hk
  have hlabels := cifar10_labels_classes k hk10
  have hlab' : (get_prediction outputs t).1 = cifar10_labels k := hlab
  refine ⟨?_, ⟨k, hk10, hlab', hlabels.2⟩, ⟨m, hmem, hmax, hm10, h2⟩⟩
  rw [hlab']
  exact hlabels.1

/-- Witness for C10: a ten-zero output row with the default threshold is
classified with an actual label, not "Low confidence". -/
theorem default_threshold_never_low_confidence_witness :
    (get_prediction (List.replicate 10 (0 : ℝ)) confidence_threshold_default).1
      ≠ "Low confidence" :=
  (default_threshold_never_low_confidence (List.replicate 10 0) (by rfl)
    confidence_threshold_default (le_refl _)).1

end FLSop
